import Mathlib

/-!
Verification development for the sushiscan-dl download pipeline.

The embedding models the refactored implementation (the second source file of
the repository): loadSavedCookies / saveCookies, preloadCookies with its bot
challenge wait loop, downloadWithRetry, and the response handler installed by
downloadingSushiscanPageImages, together with the progress-bar state they
mutate. Strings are modelled as List Char; the three JavaScript regular
expressions of the source are modelled by executable matchers with the same
leftmost-match, greedy-quantifier semantics.
-/

set_option autoImplicit false

/-! ## Character classes of the JavaScript regexes (ASCII semantics) -/

/-- JS regex class d : decimal digits. -/
def isDigitChar (c : Char) : Bool := '0' ≤ c && c ≤ '9'

/-- JS regex class w : ASCII letters, digits and underscore. -/
def isWordChar (c : Char) : Bool :=
  ('a' ≤ c && c ≤ 'z') || ('A' ≤ c && c ≤ 'Z') || isDigitChar c || c == '_'

/-- JS regex class s, restricted to the ASCII whitespace characters that can
occur in the response bodies the program reads. -/
def isSpaceChar (c : Char) : Bool :=
  c == ' ' || c == '\t' || c == '\n' || c == '\r' || c == '\x0b' || c == '\x0c'

/-- Line terminators, which the JS dot does not match. -/
def isLineTerminator (c : Char) : Bool := c == '\n' || c == '\r'

/-! ## The string splitting used by the source

The source computes the expected total as match[1].split(",").length and
builds paths from "/"-separated segments; splitOn models String.prototype.split
with a single-character separator (in particular, splitting the empty string
yields one empty field, as in JavaScript). -/

def splitOn (sep : Char) : List Char → List (List Char)
  | [] => [[]]
  | c :: rest =>
      if c == sep then [] :: splitOn sep rest
      else
        match splitOn sep rest with
        | f :: fs => (c :: f) :: fs
        | [] => [[c]]

/-- The source expression match[1].split(",") as a list of fields. -/
def splitComma (s : List Char) : List (List Char) := splitOn ',' s

/-! ## The upload-asset filter regex

Source: response.url().match of the pattern  wp-content slash upload, then
dot-plus, then a dash, digits, a literal dot, word chars, end of string.
The match is a pure existence test (the handler only checks truthiness). -/

def uploadLit : List Char := "wp-content/upload".toList

/-- Checks that s is exactly nonempty digits, then a literal dot, then a
nonempty run of word characters reaching the end of the string: the
backtracking-free residue of the pattern tail dash d-plus dot w-plus dollar. -/
def digitsThenDotThenWord (s : List Char) : Bool :=
  let ds := s.takeWhile isDigitChar
  let rest := s.dropWhile isDigitChar
  !ds.isEmpty &&
    match rest with
    | '.' :: ws => !ws.isEmpty && ws.all isWordChar
    | _ => false

/-- Looks for a dash at some position of s (with every char before it a
non-line-terminator, standing for part of the dot-plus run) such that the
residue after the dash satisfies digitsThenDotThenWord. -/
def dashSplitAfter : List Char → Bool
  | [] => false
  | c :: rest =>
      (c == '-' && digitsThenDotThenWord rest) ||
        (!isLineTerminator c && dashSplitAfter rest)

/-- The dot-plus requires at least one character before the dash. -/
def dashSplit : List Char → Bool
  | [] => false
  | c :: rest => !isLineTerminator c && dashSplitAfter rest

/-- The upload-asset filter: some position of the string starts the literal
wp-content slash upload, followed by dot-plus, a dash, digits, a dot and a
word-character extension ending the string. -/
def filterMatch : List Char → Bool
  | [] => false
  | c :: rest =>
      (uploadLit.isPrefixOf (c :: rest) && dashSplit ((c :: rest).drop uploadLit.length))
        || filterMatch rest

/-! ## The two-capture extraction regex

Source: url.match of the pattern  slash, capture one-plus chars that are
neither slash nor dash, a dash, capture digits, a dot, word chars, end.
Because the first class excludes the dash and the digit class excludes the
dot, the greedy quantifiers are forced, so at a given starting slash the
match is decided by the deterministic procedure extractAt; the JS engine
returns the captures of the leftmost starting position that succeeds. -/

def folderChar (c : Char) : Bool := !(c == '/' || c == '-')

/-- Attempts the extraction with the starting slash already consumed;
returns the two captures (folder, name) on success. -/
def extractAt (s : List Char) : Option (List Char × List Char) :=
  let folder := s.takeWhile folderChar
  let r1 := s.dropWhile folderChar
  if folder.isEmpty then none
  else
    match r1 with
    | '-' :: r2 =>
        let name := r2.takeWhile isDigitChar
        let r3 := r2.dropWhile isDigitChar
        if name.isEmpty then none
        else
          match r3 with
          | '.' :: ws => if !ws.isEmpty && ws.all isWordChar then some (folder, name) else none
          | _ => none
    | _ => none

/-- Leftmost-match scan of the extraction regex over the whole URL. -/
def extractScan : List Char → Option (List Char × List Char)
  | [] => none
  | c :: rest =>
      if c == '/' then
        match extractAt rest with
        | some p => some p
        | none => extractScan rest
      else extractScan rest

/-! ## The manifest regex

Source: body.match of the pattern  quote images quote colon, optional
whitespace, an opening bracket, capture of any chars other than a closing
bracket, a closing bracket. The handler uses capture one. -/

def imagesLit : List Char := "\"images\":".toList

/-- After the literal key and optional whitespace: an opening bracket, then
the greedy capture up to the first closing bracket, which must exist. -/
def captureBracket (s : List Char) : Option (List Char) :=
  match s with
  | '[' :: r => if r.contains ']' then some (r.takeWhile (fun c => !(c == ']'))) else none
  | _ => none

/-- The optional whitespace of the pattern: if the next char is whitespace it
must be consumed (backtracking to the empty alternative cannot succeed, since
a whitespace char is not an opening bracket). -/
def afterImagesKey (s : List Char) : Option (List Char) :=
  match s with
  | [] => none
  | c :: rest => if isSpaceChar c then captureBracket rest else captureBracket (c :: rest)

/-- Leftmost-match scan for the manifest pattern; returns capture one. -/
def manifestScan : List Char → Option (List Char)
  | [] => none
  | c :: rest =>
      if imagesLit.isPrefixOf (c :: rest) then
        match afterImagesKey ((c :: rest).drop imagesLit.length) with
        | some inner => some inner
        | none => manifestScan rest
      else manifestScan rest

example : manifestScan "x \"images\": [1,2,3] y".toList = some "1,2,3".toList := by decide
example : (splitComma "1,2,3".toList).length = 3 := by decide
example : filterMatch "https://s/wp-content/uploads/2023/x-12.jpg".toList = true := by decide
example : filterMatch "https://s/wp-content/upload-12.jpg".toList = false := by decide
example : extractScan "https://s/wp-content/uploads/2023/x-12.jpg".toList =
    some ("x".toList, "12".toList) := by decide
example : filterMatch "https://s/wp-content/upload/a-b-1.jpg".toList = true := by decide
example : extractScan "https://s/wp-content/upload/a-b-1.jpg".toList = none := by decide
example : extractScan "https://s/wp-content/upload/..-12.jpg".toList =
    some ("..".toList, "12".toList) := by decide

/-! ## The response handler of downloadingSushiscanPageImages

The handler mutates: totalImages, the progress bar (modelled by barTotal and
barValue), the Set processedUrls and the array downloadQueue. Its whole body
runs inside one try block whose catch logs the error and returns, so a thrown
error keeps the mutations made before the throw and skips the rest of the
body. Between the membership test processedUrls.has and processedUrls.add the
source has no await, so the check-and-insert of one event is a single atomic
step of the cooperative scheduler; the model therefore processes each event
as one state transition. -/

/-- A download task as enqueued by the handler: the response URL and the two
captures of the extraction regex. -/
structure DlTask where
  url : List Char
  folder : List Char
  name : List Char

/-- A network response event as seen by the page.on response handler. -/
structure NetResponse where
  url : List Char
  ok : Bool
  body : List Char

/-- Observable actions emitted while the pipeline runs. -/
inductive RunAction where
  | logDetected : Nat → RunAction
  | barStart : Nat → Nat → RunAction
  | barSetValue : Nat → RunAction
  | barIncrement : RunAction
  | logProcessingError : RunAction
  | enqueue : DlTask → RunAction

/-- The mutable state shared by the handler and the download completions. -/
structure RunState where
  totalImages : Nat
  barTotal : Option Nat
  barValue : Nat
  processedUrls : List (List Char)
  downloadQueue : List DlTask

/-- State before page.goto: totalImages = 0, bar not started, empty set and
queue. -/
def initState : RunState :=
  { totalImages := 0, barTotal := none, barValue := 0, processedUrls := [], downloadQueue := [] }

/-- The second if of the handler: filter the URL, de-duplicate against the
Set, add the URL, extract the captures, enqueue the retrying download. A URL
passing the filter but failing extraction makes the destructuring of a null
match throw; the catch logs the error, so the URL stays in the set and no
task is enqueued. -/
def assetBlock (st : RunState) (r : NetResponse) : RunState × List RunAction :=
  if filterMatch r.url && !(st.processedUrls.contains r.url) then
    let st1 := { st with processedUrls := r.url :: st.processedUrls }
    match extractScan r.url with
    | none => (st1, [RunAction.logProcessingError])
    | some (folder, name) =>
        let t : DlTask := ⟨r.url, folder, name⟩
        ({ st1 with downloadQueue := st1.downloadQueue ++ [t] }, [RunAction.enqueue t])
  else (st, [])

/-- One response event. The first if detects the manifest on the primary URL:
a body without the manifest pattern throws (caught and logged, which also
skips the asset block for this event); otherwise totalImages is assigned and
progressBar.start(totalImages, 0) resets the bar. The second if is the asset
block. -/
def handleResponse (primaryUrl : List Char) (st : RunState) (r : NetResponse) :
    RunState × List RunAction :=
  if r.url == primaryUrl && r.ok then
    match manifestScan r.body with
    | none => (st, [RunAction.logProcessingError])
    | some inner =>
        let t := (splitComma inner).length
        let st1 := { st with totalImages := t, barTotal := some t, barValue := 0 }
        ((assetBlock st1 r).1,
          RunAction.logDetected t :: RunAction.barStart t 0 :: (assetBlock st1 r).2)
  else assetBlock st r

/-- The state after the manifest assignment of the first if: totalImages is
set to the field count of the capture and the bar is restarted at 0. -/
def stManifest (st : RunState) (inner : List Char) : RunState :=
  { st with
      totalImages := (splitComma inner).length,
      barTotal := some ((splitComma inner).length),
      barValue := 0 }

/-- A terminal download success observed by the progress bar: if the download
needed retries, downloadWithRetry calls bar.update(1, ...) which sets the bar
value to 1; then the continuation chained in the handler calls
progressBar.increment(). The argument is the number of failed attempts that
preceded the success. -/
def completeTask (st : RunState) (retries : Nat) : RunState × List RunAction :=
  let st1 := if 0 < retries then { st with barValue := 1 } else st
  let acts := if 0 < retries then [RunAction.barSetValue 1] else ([] : List RunAction)
  ({ st1 with barValue := st1.barValue + 1 }, acts ++ [RunAction.barIncrement])

/-- An event of the run: a network response delivered to the handler, or a
download task reaching terminal success after the given number of retries. -/
inductive RunEvent where
  | response : NetResponse → RunEvent
  | completion : Nat → RunEvent

def stepRun (primaryUrl : List Char) (st : RunState) (e : RunEvent) :
    RunState × List RunAction :=
  match e with
  | RunEvent.response r => handleResponse primaryUrl st r
  | RunEvent.completion n => completeTask st n

/-- Processes a sequence of events, accumulating the emitted actions. -/
def runEvents (primaryUrl : List Char) (st : RunState) :
    List RunEvent → RunState × List RunAction
  | [] => (st, [])
  | e :: es =>
      ((runEvents primaryUrl (stepRun primaryUrl st e).1 es).1,
        (stepRun primaryUrl st e).2 ++ (runEvents primaryUrl (stepRun primaryUrl st e).1 es).2)

/-! ## downloadWithRetry

Source: an infinite while(true) loop; each iteration performs the request,
throws on a non-2xx status, writes the body with outputFileSync on success
(then updates the bar suffix via bar.update(1, ...) when attempts is
positive) and returns; the catch increments attempts, logs the first three
attempts verbosely, logs a suppression notice on the fourth, then sleeps
10000 milliseconds and retries. The model indexes attempts by the attempt
counter and bounds the observation window by explicit fuel: none means the
loop is still running after fuel attempts. -/

/-- The outcome of one attempt: a transport-level failure of the request, or
a response with its HTTP status and body. -/
inductive AttemptResult where
  | transportError : AttemptResult
  | response : Nat → List Char → AttemptResult

/-- Playwright APIResponse.ok(): status in the 2xx range. -/
def statusOk (s : Nat) : Bool := 200 ≤ s && s < 300

/-- The body to persist, when the attempt is a success; none on transport
failure or non-2xx status (both thrown and treated identically). -/
def successBody : AttemptResult → Option (List Char)
  | AttemptResult.transportError => none
  | AttemptResult.response s body => if statusOk s then some body else none

/-- Actions of one download task. -/
inductive DlAction where
  | logRetry : Nat → DlAction
  | logSilenced : DlAction
  | delay : Nat → DlAction
  | writeFile : List Char → DlAction
  | barSetOne : DlAction

/-- The catch-block diagnostics for the given (already incremented) attempts
counter: verbose for the first three, a suppression notice on the fourth,
silent afterwards (maxLoggedAttempts = 3). -/
def failDiagnostics (attempts : Nat) : List DlAction :=
  if attempts ≤ 3 then [DlAction.logRetry attempts]
  else if attempts == 4 then [DlAction.logSilenced]
  else []

/-- The retry loop. attempts is the number of failed attempts so far (each
earlier attempt failed, so attempt number k runs with attempts = k). -/
def downloadWithRetry (resp : Nat → AttemptResult) : Nat → Nat → Option (List DlAction)
  | _, 0 => none
  | attempts, fuel + 1 =>
      match successBody (resp attempts) with
      | some body =>
          some (DlAction.writeFile body ::
            (if 0 < attempts then [DlAction.barSetOne] else []))
      | none =>
          match downloadWithRetry resp (attempts + 1) fuel with
          | none => none
          | some tr =>
              some (failDiagnostics (attempts + 1) ++ DlAction.delay 10000 :: tr)

/-! ## preloadCookies

Source: launch a headed browser, add the saved cookies, goto the URL inside a
try block; while the title is the bot-challenge sentinel and attempts is
below 5, log guidance on the first iteration, increment attempts and await
waitForURL (which throws on its 120 second timeout); the catch logs and calls
process.exit(1), which terminates the process at once so the finally block
does not run; the finally block harvests context.cookies(), closes the
browser and returns the cookies. -/

/-- The environment of one preloadCookies call: whether the initial goto
succeeds, the page title read at the top of each loop iteration, whether the
waitForURL of each iteration resolves before its timeout, and the cookies the
context would harvest (cookies are opaque blobs here). -/
structure PreloadEnv where
  gotoOk : Bool
  titles : Nat → List Char
  waitOk : Nat → Bool
  harvested : List (List Char)

def sentinelTitle : List Char := "Just a moment...".toList

/-- The bot-challenge wait loop. The pair (attempts, rem) models the source
counter with its guard attempts < 5: rem stands for 5 - attempts and the
caller passes (0, 5), so the guard attempts < 5 is exactly rem > 0. Returns
ok with the final attempts counter when the guard fails, or error with the
number of executed iterations when waitForURL throws. -/
def challengeLoop (env : PreloadEnv) : Nat → Nat → Except Nat Nat
  | attempts, 0 => Except.ok attempts
  | attempts, rem + 1 =>
      if env.titles attempts == sentinelTitle then
        if env.waitOk attempts then challengeLoop env (attempts + 1) rem
        else Except.error (attempts + 1)
      else Except.ok attempts

/-- How one preloadCookies call ends: process.exit with a code, or a normal
return of the harvested cookies. -/
inductive PreloadOutcome where
  | exited : Nat → PreloadOutcome
  | returned : List (List Char) → PreloadOutcome

/-- The observable result: the outcome, whether the browser context was
closed, and how many loop iterations ran. -/
structure PreloadResult where
  outcome : PreloadOutcome
  browserClosed : Bool
  loopIterations : Nat

/-- preloadCookies: a goto failure or a waitForURL timeout reaches the catch,
which logs and calls process.exit(1) before the finally block, so the browser
stays open and nothing is returned; otherwise the finally block harvests the
cookies, closes the browser and returns them. -/
def preloadCookies (env : PreloadEnv) : PreloadResult :=
  if env.gotoOk then
    match challengeLoop env 0 5 with
    | Except.error n =>
        { outcome := PreloadOutcome.exited 1, browserClosed := false, loopIterations := n }
    | Except.ok n =>
        { outcome := PreloadOutcome.returned env.harvested, browserClosed := true,
          loopIterations := n }
  else { outcome := PreloadOutcome.exited 1, browserClosed := false, loopIterations := 0 }

/-! ## Cookie file IO

loadSavedCookies: if the cookie file exists, a try block reads and parses it,
pushing the parsed cookies; the catch logs a read error, leaving the list
empty. saveCookies: a try block writes the file; the catch logs a write
error. Both functions always return normally. -/

inductive CookieAction where
  | logLoaded : Nat → CookieAction
  | logReadError : CookieAction
  | logSaved : Nat → CookieAction
  | logWriteError : CookieAction

/-- Filesystem behavior for one run: whether the cookie file exists, the
outcome of readFileSync plus JSON.parse (error message or parsed cookie
list), and whether writeFileSync succeeds. -/
structure CookieFsEnv where
  fileExists : Bool
  readParse : Except (List Char) (List (List Char))
  writeOk : Bool

/-- The body of the try block of loadSavedCookies: read and parse, or throw. -/
def loadSavedCookiesBody (env : CookieFsEnv) : Except (List Char) (List (List Char)) :=
  env.readParse

def loadSavedCookies (env : CookieFsEnv) : List (List Char) × List CookieAction :=
  if env.fileExists then
    match loadSavedCookiesBody env with
    | Except.ok cs => (cs, [CookieAction.logLoaded cs.length])
    | Except.error _ => ([], [CookieAction.logReadError])
  else ([], [])

def saveCookies (env : CookieFsEnv) (cookies : List (List Char)) : List CookieAction :=
  if env.writeOk then [CookieAction.logSaved cookies.length]
  else [CookieAction.logWriteError]

/-! ## Destination paths

downloadWithRetry persists the body to destinationFolder, slash, folder,
slash, name, dot jpg. The normalization normSegs models POSIX lexical
resolution of dot and dot-dot segments, used to state whether the written
file stays below the destination root. -/

def destPath (dest folder name : List Char) : List Char :=
  dest ++ '/' :: folder ++ '/' :: name ++ ".jpg".toList

def pathSegs (p : List Char) : List (List Char) := splitOn '/' p

/-- One step of lexical path resolution. -/
def normStep (acc : List (List Char)) (seg : List Char) : List (List Char) :=
  if seg == ".".toList then acc
  else if seg == "..".toList then acc.dropLast
  else acc ++ [seg]

/-- Lexical resolution of dot and dot-dot segments of a path. -/
def normSegs (segs : List (List Char)) : List (List Char) := segs.foldl normStep []

/-! ## Instrumentation predicates and invariants -/

/-- Recognizes a progress-bar start action in a trace. -/
def isBarStart : RunAction → Bool
  | RunAction.barStart _ _ => true
  | _ => false

/-- Number of tasks in the download queue whose URL is u. -/
def countUrl (st : RunState) (u : List Char) : Nat :=
  (st.downloadQueue.filter (fun t => t.url == u)).length

/-- The de-duplication invariant tying the processed set to the queue: every
processed URL passed the filter; a URL outside the set has no queued task;
a URL inside the set has exactly one queued task when its extraction
succeeds and none when it fails. -/
def PQInv (processed : List (List Char)) (queue : List DlTask) : Prop :=
  (∀ v ∈ processed, filterMatch v = true) ∧
  (∀ v, v ∉ processed → ((queue.filter (fun t => t.url == v)).length = 0)) ∧
  (∀ v ∈ processed,
    (queue.filter (fun t => t.url == v)).length = if (extractScan v).isSome then 1 else 0)

/-- The trace of one failed attempt of the retry loop (0-based attempt j):
the catch diagnostics for the incremented counter, then the fixed 10000
millisecond delay. -/
def failSeg (j : Nat) : List DlAction := failDiagnostics (j + 1) ++ [DlAction.delay 10000]

/-- Recognizes the fixed 10 second delay action of the retry loop. -/
def isDelayTen : DlAction → Bool
  | DlAction.delay ms => ms == 10000
  | _ => false

/-! ## Helper lemmas about the handler -/

theorem stepRun_completion_zero (p : List Char) (st : RunState) :
    stepRun p st (RunEvent.completion 0) =
      ({ st with barValue := st.barValue + 1 }, [RunAction.barIncrement]) := rfl

theorem assetBlock_acts_no_barStart (st : RunState) (r : NetResponse) :
    (assetBlock st r).2.countP isBarStart = 0 := by
  unfold assetBlock
  split
  · split <;> rfl
  · rfl

theorem assetBlock_bar (st : RunState) (r : NetResponse) :
    (assetBlock st r).1.totalImages = st.totalImages ∧
    (assetBlock st r).1.barTotal = st.barTotal ∧
    (assetBlock st r).1.barValue = st.barValue := by
  unfold assetBlock
  split
  · split <;> exact ⟨rfl, rfl, rfl⟩
  · exact ⟨rfl, rfl, rfl⟩

theorem completeTask_pq (st : RunState) (n : Nat) :
    (completeTask st n).1.processedUrls = st.processedUrls ∧
    (completeTask st n).1.downloadQueue = st.downloadQueue := by
  unfold completeTask
  split <;> exact ⟨rfl, rfl⟩

theorem completeTask_total (st : RunState) (n : Nat) :
    (completeTask st n).1.barTotal = st.barTotal ∧
    (completeTask st n).1.totalImages = st.totalImages := by
  unfold completeTask
  split <;> exact ⟨rfl, rfl⟩

theorem completeTask_zero (st : RunState) :
    completeTask st 0 = ({ st with barValue := st.barValue + 1 }, [RunAction.barIncrement]) := rfl

/-- Behavior of the asset block on a URL that passed the filter, is not in
the de-duplication set, and fails the extraction pattern. -/
theorem assetBlock_malformed (st : RunState) (r : NetResponse)
    (hf : filterMatch r.url = true) (he : extractScan r.url = none)
    (hfresh : st.processedUrls.contains r.url = false) :
    assetBlock st r =
      ({ st with processedUrls := r.url :: st.processedUrls },
        [RunAction.logProcessingError]) := by
  unfold assetBlock
  rw [hf, hfresh, he]
  simp

/-- When the response URL differs from the primary URL, the handler body is
just the asset block. -/
theorem handleResponse_ne (p : List Char) (st : RunState) (r : NetResponse)
    (h : (r.url == p) = false) : handleResponse p st r = assetBlock st r := by
  unfold handleResponse
  rw [h]
  simp

/-- Case analysis of the handler: manifest branch, manifest-throw branch, or
plain asset block. -/
theorem handleResponse_cases (p : List Char) (st : RunState) (r : NetResponse) :
    (∃ inner, (r.url == p && r.ok) = true ∧ manifestScan r.body = some inner ∧
      handleResponse p st r =
        ((assetBlock (stManifest st inner) r).1,
          RunAction.logDetected ((splitComma inner).length) ::
            RunAction.barStart ((splitComma inner).length) 0 ::
              (assetBlock (stManifest st inner) r).2)) ∨
    ((r.url == p && r.ok) = true ∧ manifestScan r.body = none ∧
      handleResponse p st r = (st, [RunAction.logProcessingError])) ∨
    ((r.url == p && r.ok) = false ∧ handleResponse p st r = assetBlock st r) := by
  unfold handleResponse
  cases hg : (r.url == p && r.ok) with
  | false => exact Or.inr (Or.inr ⟨rfl, by simp⟩)
  | true =>
      cases hm : manifestScan r.body with
      | none => exact Or.inr (Or.inl ⟨rfl, rfl, by simp⟩)
      | some inner => exact Or.inl ⟨inner, rfl, rfl, by simp [stManifest]⟩

/-- C7: a response URL that passes the upload-asset filter but does not match
the two-capture extraction pattern is handled defensively when it is first
seen: the destructuring of the null match throws, the catch of the handler
logs the fault, no download task is enqueued, and the state transition is
total (the pipeline keeps processing events). -/
theorem c7_malformed_logged_skipped (p : List Char) (st : RunState) (r : NetResponse)
    (hf : filterMatch r.url = true) (he : extractScan r.url = none)
    (hfresh : st.processedUrls.contains r.url = false) :
    (handleResponse p st r).1.downloadQueue = st.downloadQueue ∧
    RunAction.logProcessingError ∈ (handleResponse p st r).2 ∧
    ∀ t : DlTask, RunAction.enqueue t ∉ (handleResponse p st r).2 := by
  rcases handleResponse_cases p st r with ⟨inner, _, _, heq⟩ | ⟨_, _, heq⟩ | ⟨_, heq⟩
  · rw [heq, assetBlock_malformed (stManifest st inner) r hf he hfresh]
    exact ⟨rfl, by simp, fun t => by simp⟩
  · rw [heq]
    exact ⟨rfl, by simp, fun t => by simp⟩
  · rw [heq, assetBlock_malformed st r hf he hfresh]
    exact ⟨rfl, by simp, fun t => by simp⟩

/-- C7 witness: a concrete URL passing the filter whose extraction fails
(the last path segment contains an inner dash, so the folder capture cannot
match); the event is logged and skipped from the initial state. -/
theorem c7_malformed_logged_skipped_witness :
    filterMatch "https://s/wp-content/upload/a-b-1.jpg".toList = true ∧
    extractScan "https://s/wp-content/upload/a-b-1.jpg".toList = none ∧
    ((handleResponse "https://sushiscan.net/c/".toList initState
        ⟨"https://s/wp-content/upload/a-b-1.jpg".toList, true, []⟩).1.downloadQueue =
      initState.downloadQueue ∧
    RunAction.logProcessingError ∈ (handleResponse "https://sushiscan.net/c/".toList initState
        ⟨"https://s/wp-content/upload/a-b-1.jpg".toList, true, []⟩).2 ∧
    ∀ t : DlTask, RunAction.enqueue t ∉ (handleResponse "https://sushiscan.net/c/".toList initState
        ⟨"https://s/wp-content/upload/a-b-1.jpg".toList, true, []⟩).2) :=
  ⟨by decide, by decide,
    c7_malformed_logged_skipped _ _ _ (by decide) (by decide) (by decide)⟩

/-- C8: on a successful response for the primary URL whose body matches the
manifest pattern with capture inner, the handler sets totalImages to the
number of comma-delimited fields of inner and starts the progress bar at 0
out of that total. -/
theorem c8_expected_total (p : List Char) (st : RunState) (r : NetResponse) (inner : List Char)
    (hurl : r.url = p) (hok : r.ok = true) (hm : manifestScan r.body = some inner) :
    (handleResponse p st r).1.totalImages = (splitComma inner).length ∧
    (handleResponse p st r).1.barTotal = some ((splitComma inner).length) ∧
    (handleResponse p st r).1.barValue = 0 ∧
    RunAction.barStart ((splitComma inner).length) 0 ∈ (handleResponse p st r).2 := by
  rcases handleResponse_cases p st r with ⟨inner2, _, hm2, heq⟩ | ⟨_, hm2, _⟩ | ⟨hg, _⟩
  · rw [hm] at hm2
    cases hm2
    rw [heq]
    have hb := assetBlock_bar (stManifest st inner) r
    exact ⟨hb.1, hb.2.1, hb.2.2, by simp⟩
  · rw [hm] at hm2
    cases hm2
  · rw [hurl, hok] at hg
    simp at hg

/-- C9 counterexample: when the persisted cookie file is missing, the code
takes the existsSync guard, returns the empty cookie set and logs nothing, so
the claim that a missing file is logged as an error is false at this input
(the run does continue with an empty set). -/
theorem c9_counterexample :
    (loadSavedCookies ⟨false, Except.error [], true⟩).1 = [] ∧
    (loadSavedCookies ⟨false, Except.error [], true⟩).2 = [] :=
  ⟨rfl, rfl⟩

/-- C9 amended: cookie-file IO failures are recovered and never run-fatal: a
missing file yields the empty set silently through the existsSync guard; a
failing read or parse is caught, logged, and yields the empty set; a failing
write is caught and logged; both functions always return normally. -/
theorem c9_amended (env : CookieFsEnv) (cookies : List (List Char)) :
    (env.fileExists = false → loadSavedCookies env = ([], [])) ∧
    (∀ e, env.fileExists = true → env.readParse = Except.error e →
      loadSavedCookies env = ([], [CookieAction.logReadError])) ∧
    (env.writeOk = false → saveCookies env cookies = [CookieAction.logWriteError]) ∧
    (env.writeOk = true → saveCookies env cookies = [CookieAction.logSaved cookies.length]) := by
  refine ⟨fun hx => ?_, fun e hx hr => ?_, fun hw => ?_, fun hw => ?_⟩
  · simp [loadSavedCookies, hx]
  · simp [loadSavedCookies, loadSavedCookiesBody, hx, hr]
  · simp [saveCookies, hw]
  · simp [saveCookies, hw]

/-- C9 witness: concrete environments exercising the read-failure and the
write-failure recovery paths. -/
theorem c9_amended_witness :
    loadSavedCookies ⟨true, Except.error "bad json".toList, true⟩ =
      ([], [CookieAction.logReadError]) ∧
    saveCookies ⟨true, Except.ok [], false⟩ [['a']] = [CookieAction.logWriteError] :=
  ⟨(c9_amended ⟨true, Except.error "bad json".toList, true⟩ []).2.1 "bad json".toList rfl rfl,
    (c9_amended ⟨true, Except.ok [], false⟩ [['a']]).2.2.1 rfl⟩

/-- C4: evaluation at the failing input. Three retry-free completions bring
the completed count to 3; a fourth completion that needed one retry passes 1
as the first argument of bar.update, which sets the bar value to 1 before the
increment, leaving the count at 2: the count decreased and the completion did
not advance it by exactly one. -/
theorem c4_completion_resets_count :
    ((runEvents "u".toList initState
      [RunEvent.completion 0, RunEvent.completion 0, RunEvent.completion 0]).1.barValue = 3) ∧
    ((runEvents "u".toList initState
      [RunEvent.completion 0, RunEvent.completion 0, RunEvent.completion 0,
        RunEvent.completion 1]).1.barValue = 2) := by
  exact ⟨rfl, rfl⟩

/-- Any result of the challenge loop is bounded by attempts plus the
remaining-iterations budget. -/
theorem challengeLoop_le (env : PreloadEnv) :
    ∀ rem attempts n,
      (challengeLoop env attempts rem = Except.ok n ∨
        challengeLoop env attempts rem = Except.error n) → n ≤ attempts + rem := by
  intro rem
  induction rem with
  | zero =>
      intro a n h
      rcases h with h | h <;> simp [challengeLoop] at h
      omega
  | succ r ih =>
      intro a n h
      unfold challengeLoop at h
      split at h
      · split at h
        · have := ih (a + 1) n h
          omega
        · simp at h
          omega
      · simp at h
        omega

/-- When the title stays at the sentinel and every waitForURL resolves, the
loop runs through its whole budget and exits with the exhausted counter. -/
theorem challengeLoop_sentinel (env : PreloadEnv)
    (ht : ∀ k, env.titles k = sentinelTitle) (hw : ∀ k, env.waitOk k = true) :
    ∀ rem attempts, challengeLoop env attempts rem = Except.ok (attempts + rem) := by
  intro rem
  induction rem with
  | zero => intro a; rfl
  | succ r ih =>
      intro a
      unfold challengeLoop
      rw [ht a, hw a]
      simp only [beq_self_eq_true, if_true]
      rw [ih (a + 1)]
      congr 1
      omega

/-- C5 counterexample: with the title equal to the sentinel on every read and
every waitForURL resolving, the loop exhausts its bound of 5 iterations and
the function then returns the harvested cookies normally: exhausting the
bound is not a reported failure. -/
theorem c5_counterexample :
    (preloadCookies ⟨true, fun _ => sentinelTitle, fun _ => true, [['c']]⟩).loopIterations = 5 ∧
    (preloadCookies ⟨true, fun _ => sentinelTitle, fun _ => true, [['c']]⟩).outcome =
      PreloadOutcome.returned [['c']] :=
  ⟨rfl, rfl⟩

/-- C5 amended: the bot-challenge wait loop performs at most 5 iterations in
every execution; exhausting that bound is not reported — the function then
proceeds to harvest and return the cookies (only a waitForURL timeout inside
an iteration is reported and exits the process). -/
theorem c5_amended (env : PreloadEnv) :
    (preloadCookies env).loopIterations ≤ 5 ∧
    (env.gotoOk = true → (∀ k, env.titles k = sentinelTitle) → (∀ k, env.waitOk k = true) →
      preloadCookies env =
        { outcome := PreloadOutcome.returned env.harvested, browserClosed := true,
          loopIterations := 5 }) := by
  constructor
  · unfold preloadCookies
    split
    · cases hc : challengeLoop env 0 5 with
      | error n => exact challengeLoop_le env 5 0 n (Or.inr hc)
      | ok n => exact challengeLoop_le env 5 0 n (Or.inl hc)
    · exact Nat.zero_le 5
  · intro hg ht hw
    unfold preloadCookies
    rw [hg]
    simp only [if_true]
    rw [challengeLoop_sentinel env ht hw 5 0]

/-- C5 witness: the bound and the silent-exhaustion behavior at a concrete
environment whose title never leaves the sentinel. -/
theorem c5_amended_witness :
    (preloadCookies ⟨true, fun _ => sentinelTitle, fun _ => true, [['c']]⟩).loopIterations ≤ 5 ∧
    preloadCookies ⟨true, fun _ => sentinelTitle, fun _ => true, [['c']]⟩ =
      { outcome := PreloadOutcome.returned [['c']], browserClosed := true, loopIterations := 5 } :=
  ⟨(c5_amended _).1, (c5_amended _).2 rfl (fun _ => rfl) (fun _ => rfl)⟩

/-- C6 counterexample: when the initial page.goto fails, the catch logs and
calls process.exit(1), which terminates the process before the finally block,
so the browsing context is not closed and no cookies are returned — the
claimed guaranteed cleanup fails on this exit path. -/
theorem c6_counterexample :
    (preloadCookies ⟨false, fun _ => [], fun _ => false, [['c']]⟩).browserClosed = false ∧
    (preloadCookies ⟨false, fun _ => [], fun _ => false, [['c']]⟩).outcome =
      PreloadOutcome.exited 1 :=
  ⟨rfl, rfl⟩

/-- C6 amended: the context is closed and the harvested cookies returned
exactly on the non-exception paths (normal loop exit, including bound
exhaustion); a navigation failure or a waitForURL timeout reaches the catch,
which exits the process with code 1 before the cleanup block, leaving the
context open and returning nothing. -/
theorem c6_amended (env : PreloadEnv) :
    (env.gotoOk = false →
      preloadCookies env =
        { outcome := PreloadOutcome.exited 1, browserClosed := false, loopIterations := 0 }) ∧
    (∀ n, env.gotoOk = true → challengeLoop env 0 5 = Except.error n →
      preloadCookies env =
        { outcome := PreloadOutcome.exited 1, browserClosed := false, loopIterations := n }) ∧
    (∀ n, env.gotoOk = true → challengeLoop env 0 5 = Except.ok n →
      preloadCookies env =
        { outcome := PreloadOutcome.returned env.harvested, browserClosed := true,
          loopIterations := n }) := by
  refine ⟨fun hg => ?_, fun n hg hc => ?_, fun n hg hc => ?_⟩
  · simp [preloadCookies, hg]
  · simp [preloadCookies, hg, hc]
  · simp [preloadCookies, hg, hc]

/-- C6 witness: the three exit paths at concrete environments — goto failure,
waitForURL timeout inside the loop, and normal exit. -/
theorem c6_amended_witness :
    preloadCookies ⟨false, fun _ => [], fun _ => true, []⟩ =
      { outcome := PreloadOutcome.exited 1, browserClosed := false, loopIterations := 0 } ∧
    preloadCookies ⟨true, fun _ => sentinelTitle, fun _ => false, []⟩ =
      { outcome := PreloadOutcome.exited 1, browserClosed := false, loopIterations := 1 } ∧
    preloadCookies ⟨true, fun _ => [], fun _ => true, [['c']]⟩ =
      { outcome := PreloadOutcome.returned [['c']], browserClosed := true,
        loopIterations := 0 } :=
  ⟨(c6_amended _).1 rfl, (c6_amended _).2.1 1 rfl rfl, (c6_amended _).2.2 0 rfl rfl⟩

/-- C8 witness: a body containing the manifest text images colon bracket
1,2,3 bracket yields an expected total of 3 and a bar started at 0 of 3. -/
theorem c8_expected_total_witness :
    (handleResponse "https://sushiscan.net/c/".toList initState
      ⟨"https://sushiscan.net/c/".toList, true, "x \"images\": [1,2,3] y".toList⟩).1.totalImages = 3 ∧
    (handleResponse "https://sushiscan.net/c/".toList initState
      ⟨"https://sushiscan.net/c/".toList, true, "x \"images\": [1,2,3] y".toList⟩).1.barTotal = some 3 ∧
    (handleResponse "https://sushiscan.net/c/".toList initState
      ⟨"https://sushiscan.net/c/".toList, true, "x \"images\": [1,2,3] y".toList⟩).1.barValue = 0 ∧
    RunAction.barStart 3 0 ∈ (handleResponse "https://sushiscan.net/c/".toList initState
      ⟨"https://sushiscan.net/c/".toList, true, "x \"images\": [1,2,3] y".toList⟩).2 := by
  have h := c8_expected_total "https://sushiscan.net/c/".toList initState
    ⟨"https://sushiscan.net/c/".toList, true, "x \"images\": [1,2,3] y".toList⟩ "1,2,3".toList
    rfl rfl (by decide)
  simpa using h


/-- A run of retry-free completion events advances the bar value by exactly
their number, preserves the bar total, and starts no bar. -/
theorem runEvents_completions_zero (p : List Char) (es : List RunEvent)
    (h : ∀ e ∈ es, e = RunEvent.completion 0) :
    ∀ st : RunState,
      (runEvents p st es).1.barValue = st.barValue + es.length ∧
      (runEvents p st es).1.barTotal = st.barTotal ∧
      (runEvents p st es).2.countP isBarStart = 0 := by
  induction es with
  | nil => intro st; simp [runEvents]
  | cons e es ih =>
      intro st
      have he : e = RunEvent.completion 0 := h e (List.mem_cons_self e es)
      subst he
      have ih2 := ih (fun x hmem => h x (List.mem_cons_of_mem _ hmem))
        { st with barValue := st.barValue + 1 }
      simp only [runEvents, stepRun_completion_zero]
      refine ⟨?_, ?_, ?_⟩
      · rw [ih2.1]
        simp only [List.length_cons]
        omega
      · exact ih2.2.1
      · rw [List.countP_append, ih2.2.2]
        rfl

/-- C3 counterexample: delivering the successful primary manifest response a
second time (after one completion) starts the bar a second time: the total is
set twice and the completed count is reset from 1 back to 0, contrary to the
claim that the total is set at most once and never resets the count. -/
theorem c3_counterexample :
    ((runEvents "https://sushiscan.net/c/".toList initState
      [RunEvent.response ⟨"https://sushiscan.net/c/".toList, true, "\"images\": [1,2]".toList⟩,
        RunEvent.completion 0,
        RunEvent.response ⟨"https://sushiscan.net/c/".toList, true,
          "\"images\": [1,2]".toList⟩]).2.countP isBarStart = 2) ∧
    ((runEvents "https://sushiscan.net/c/".toList initState
      [RunEvent.response ⟨"https://sushiscan.net/c/".toList, true, "\"images\": [1,2]".toList⟩,
        RunEvent.completion 0]).1.barValue = 1) ∧
    ((runEvents "https://sushiscan.net/c/".toList initState
      [RunEvent.response ⟨"https://sushiscan.net/c/".toList, true, "\"images\": [1,2]".toList⟩,
        RunEvent.completion 0,
        RunEvent.response ⟨"https://sushiscan.net/c/".toList, true,
          "\"images\": [1,2]".toList⟩]).1.barValue = 0) := by
  exact ⟨rfl, rfl, rfl⟩

/-- C3 amended: each successful primary-URL response whose body matches the
manifest pattern starts the bar (so a second such event sets the total again
and resets the completed count to 0); when exactly one such event occurs,
followed only by retry-free completions numbering at most the total, the bar
is started exactly once and the completed count equals their number, never
exceeding the total. -/
theorem c3_amended (p b inner : List Char) (es : List RunEvent)
    (hm : manifestScan b = some inner)
    (hes : ∀ e ∈ es, e = RunEvent.completion 0)
    (hlen : es.length ≤ (splitComma inner).length) :
    (runEvents p initState (RunEvent.response ⟨p, true, b⟩ :: es)).1.barTotal =
      some ((splitComma inner).length) ∧
    (runEvents p initState (RunEvent.response ⟨p, true, b⟩ :: es)).1.barValue = es.length ∧
    (runEvents p initState (RunEvent.response ⟨p, true, b⟩ :: es)).1.barValue ≤
      (splitComma inner).length ∧
    (runEvents p initState (RunEvent.response ⟨p, true, b⟩ :: es)).2.countP isBarStart = 1 := by
  rcases handleResponse_cases p initState ⟨p, true, b⟩ with
    ⟨inner2, _, hm2, heq⟩ | ⟨_, hm2, _⟩ | ⟨hg, _⟩
  · have hm3 : manifestScan b = some inner2 := hm2
    rw [hm] at hm3
    cases hm3
    have hb := assetBlock_bar (stManifest initState inner) ⟨p, true, b⟩
    have hrest := runEvents_completions_zero p es hes
      (assetBlock (stManifest initState inner) ⟨p, true, b⟩).1
    simp only [runEvents, stepRun]
    rw [heq]
    refine ⟨?_, ?_, ?_, ?_⟩
    · rw [hrest.2.1, hb.2.1]
      rfl
    · rw [hrest.1, hb.2.2]
      show 0 + es.length = es.length
      omega
    · rw [hrest.1, hb.2.2]
      show 0 + es.length ≤ _
      omega
    · rw [List.countP_append, hrest.2.2, List.countP_cons, List.countP_cons,
        assetBlock_acts_no_barStart]
      rfl
  · have hm3 : manifestScan b = some inner := hm
    rw [hm2] at hm3
    cases hm3
  · have hg2 : (p == p && true) = false := hg
    simp at hg2

/-- C3 witness: one primary manifest response announcing two images followed
by two retry-free completions: the bar is started once, the total is 2, and
the completed count ends at 2, not exceeding the total. -/
theorem c3_amended_witness :
    (runEvents "https://sushiscan.net/c/".toList initState
      [RunEvent.response ⟨"https://sushiscan.net/c/".toList, true, "\"images\": [1,2]".toList⟩,
        RunEvent.completion 0, RunEvent.completion 0]).1.barTotal = some 2 ∧
    (runEvents "https://sushiscan.net/c/".toList initState
      [RunEvent.response ⟨"https://sushiscan.net/c/".toList, true, "\"images\": [1,2]".toList⟩,
        RunEvent.completion 0, RunEvent.completion 0]).1.barValue = 2 ∧
    (runEvents "https://sushiscan.net/c/".toList initState
      [RunEvent.response ⟨"https://sushiscan.net/c/".toList, true, "\"images\": [1,2]".toList⟩,
        RunEvent.completion 0, RunEvent.completion 0]).1.barValue ≤ 2 ∧
    (runEvents "https://sushiscan.net/c/".toList initState
      [RunEvent.response ⟨"https://sushiscan.net/c/".toList, true, "\"images\": [1,2]".toList⟩,
        RunEvent.completion 0, RunEvent.completion 0]).2.countP isBarStart = 1 := by
  have h := c3_amended "https://sushiscan.net/c/".toList "\"images\": [1,2]".toList
    "1,2".toList [RunEvent.completion 0, RunEvent.completion 0]
    (by decide)
    (by intro e he
        simp only [List.mem_cons, List.not_mem_nil, or_false] at he
        rcases he with rfl | rfl <;> rfl)
    (by decide)
  simpa using h

/-! ## The de-duplication invariant (C1) -/

theorem assetBlock_eq_of_stale (st : RunState) (r : NetResponse)
    (hg : (filterMatch r.url && !(st.processedUrls.contains r.url)) = false) :
    assetBlock st r = (st, []) := by
  unfold assetBlock
  rw [hg]
  simp

theorem assetBlock_eq_of_guard_none (st : RunState) (r : NetResponse)
    (hg : (filterMatch r.url && !(st.processedUrls.contains r.url)) = true)
    (hx : extractScan r.url = none) :
    assetBlock st r =
      ({ st with processedUrls := r.url :: st.processedUrls },
        [RunAction.logProcessingError]) := by
  unfold assetBlock
  rw [hg, hx]
  simp

theorem assetBlock_eq_of_guard_some (st : RunState) (r : NetResponse) (f n : List Char)
    (hg : (filterMatch r.url && !(st.processedUrls.contains r.url)) = true)
    (hx : extractScan r.url = some (f, n)) :
    assetBlock st r =
      ({ st with
          processedUrls := r.url :: st.processedUrls,
          downloadQueue := st.downloadQueue ++ [⟨r.url, f, n⟩] },
        [RunAction.enqueue ⟨r.url, f, n⟩]) := by
  unfold assetBlock
  rw [hg, hx]
  simp

theorem countFilter_append_task (q : List DlTask) (t : DlTask) (v : List Char) :
    ((q ++ [t]).filter (fun x => x.url == v)).length =
      (q.filter (fun x => x.url == v)).length + (if t.url = v then 1 else 0) := by
  rw [List.filter_append]
  simp [List.filter]
  split <;> simp_all

theorem assetBlock_inv (st : RunState) (r : NetResponse)
    (h : PQInv st.processedUrls st.downloadQueue) :
    PQInv (assetBlock st r).1.processedUrls (assetBlock st r).1.downloadQueue := by
  obtain ⟨h1, h2, h3⟩ := h
  cases hg : (filterMatch r.url && !(st.processedUrls.contains r.url)) with
  | false =>
      rw [assetBlock_eq_of_stale st r hg]
      exact ⟨h1, h2, h3⟩
  | true =>
      have hg2 : filterMatch r.url = true ∧ r.url ∉ st.processedUrls := by
        have hgg := hg
        simp at hgg
        exact hgg
      obtain ⟨hf, hfr⟩ := hg2
      cases hx : extractScan r.url with
      | none =>
          rw [assetBlock_eq_of_guard_none st r hg hx]
          refine ⟨?_, ?_, ?_⟩
          · intro v hv
            rcases List.mem_cons.mp hv with rfl | hv2
            · exact hf
            · exact h1 v hv2
          · intro v hv
            exact h2 v (fun hmem => hv (List.mem_cons_of_mem _ hmem))
          · intro v hv
            rcases List.mem_cons.mp hv with rfl | hv2
            · rw [hx]
              simpa using h2 r.url hfr
            · exact h3 v hv2
      | some pr =>
          obtain ⟨f, n⟩ := pr
          rw [assetBlock_eq_of_guard_some st r f n hg hx]
          refine ⟨?_, ?_, ?_⟩
          · intro v hv
            rcases List.mem_cons.mp hv with rfl | hv2
            · exact hf
            · exact h1 v hv2
          · intro v hv
            have hvne : v ≠ r.url := fun he => hv (he ▸ List.mem_cons_self _ _)
            have hvnotin : v ∉ st.processedUrls := fun hmem => hv (List.mem_cons_of_mem _ hmem)
            show ((st.downloadQueue ++ [(⟨r.url, f, n⟩ : DlTask)]).filter
                (fun x => x.url == v)).length = 0
            rw [countFilter_append_task, h2 v hvnotin]
            simp
            exact fun he => hvne he.symm
          · intro v hv
            rcases List.mem_cons.mp hv with rfl | hv2
            · show ((st.downloadQueue ++ [(⟨r.url, f, n⟩ : DlTask)]).filter
                  (fun x => x.url == r.url)).length = _
              rw [countFilter_append_task, h2 r.url hfr, hx]
              simp
            · have hvne : v ≠ r.url := fun he => hfr (he ▸ hv2)
              show ((st.downloadQueue ++ [(⟨r.url, f, n⟩ : DlTask)]).filter
                  (fun x => x.url == v)).length = _
              rw [countFilter_append_task, h3 v hv2]
              have : (if (⟨r.url, f, n⟩ : DlTask).url = v then 1 else 0) = 0 := by
                simp
                exact fun he => hvne he.symm
              rw [this]
              omega

theorem handleResponse_inv (p : List Char) (st : RunState) (r : NetResponse)
    (h : PQInv st.processedUrls st.downloadQueue) :
    PQInv (handleResponse p st r).1.processedUrls (handleResponse p st r).1.downloadQueue := by
  rcases handleResponse_cases p st r with ⟨inner, _, _, heq⟩ | ⟨_, _, heq⟩ | ⟨_, heq⟩
  · rw [heq]
    exact assetBlock_inv (stManifest st inner) r h
  · rw [heq]
    exact h
  · rw [heq]
    exact assetBlock_inv st r h

theorem stepRun_inv (p : List Char) (st : RunState) (e : RunEvent)
    (h : PQInv st.processedUrls st.downloadQueue) :
    PQInv (stepRun p st e).1.processedUrls (stepRun p st e).1.downloadQueue := by
  cases e with
  | response r => exact handleResponse_inv p st r h
  | completion n =>
      have hc := completeTask_pq st n
      show PQInv (completeTask st n).1.processedUrls (completeTask st n).1.downloadQueue
      rw [hc.1, hc.2]
      exact h

theorem runEvents_inv (p : List Char) (es : List RunEvent) :
    ∀ st : RunState, PQInv st.processedUrls st.downloadQueue →
      PQInv (runEvents p st es).1.processedUrls (runEvents p st es).1.downloadQueue := by
  induction es with
  | nil => intro st h; exact h
  | cons e es ih =>
      intro st h
      exact ih (stepRun p st e).1 (stepRun_inv p st e h)

theorem assetBlock_processed_super (st : RunState) (r : NetResponse) :
    ∀ v ∈ st.processedUrls, v ∈ (assetBlock st r).1.processedUrls := by
  intro v hv
  cases hg : (filterMatch r.url && !(st.processedUrls.contains r.url)) with
  | false =>
      rw [assetBlock_eq_of_stale st r hg]
      exact hv
  | true =>
      cases hx : extractScan r.url with
      | none =>
          rw [assetBlock_eq_of_guard_none st r hg hx]
          exact List.mem_cons_of_mem _ hv
      | some pr =>
          obtain ⟨f, n⟩ := pr
          rw [assetBlock_eq_of_guard_some st r f n hg hx]
          exact List.mem_cons_of_mem _ hv

theorem stepRun_processed_super (p : List Char) (st : RunState) (e : RunEvent) :
    ∀ v ∈ st.processedUrls, v ∈ (stepRun p st e).1.processedUrls := by
  intro v hv
  cases e with
  | response r =>
      rcases handleResponse_cases p st r with ⟨inner, _, _, heq⟩ | ⟨_, _, heq⟩ | ⟨_, heq⟩
      · show v ∈ (handleResponse p st r).1.processedUrls
        rw [heq]
        exact assetBlock_processed_super (stManifest st inner) r v hv
      · show v ∈ (handleResponse p st r).1.processedUrls
        rw [heq]
        exact hv
      · show v ∈ (handleResponse p st r).1.processedUrls
        rw [heq]
        exact assetBlock_processed_super st r v hv
  | completion n =>
      show v ∈ (completeTask st n).1.processedUrls
      rw [(completeTask_pq st n).1]
      exact hv

theorem runEvents_processed_super (p : List Char) (es : List RunEvent) :
    ∀ st : RunState, ∀ v ∈ st.processedUrls, v ∈ (runEvents p st es).1.processedUrls := by
  induction es with
  | nil => intro st v hv; exact hv
  | cons e es ih =>
      intro st v hv
      exact ih (stepRun p st e).1 v (stepRun_processed_super p st e v hv)

theorem assetBlock_mem_self (st : RunState) (r : NetResponse)
    (hf : filterMatch r.url = true) :
    r.url ∈ (assetBlock st r).1.processedUrls := by
  cases hg : (filterMatch r.url && !(st.processedUrls.contains r.url)) with
  | false =>
      rw [assetBlock_eq_of_stale st r hg]
      have hcont : st.processedUrls.contains r.url = true := by
        cases hcc : st.processedUrls.contains r.url
        · rw [hf, hcc] at hg
          simp at hg
        · rfl
      simpa using hcont
  | true =>
      cases hx : extractScan r.url with
      | none =>
          rw [assetBlock_eq_of_guard_none st r hg hx]
          exact List.mem_cons_self _ _
      | some pr =>
          obtain ⟨f, n⟩ := pr
          rw [assetBlock_eq_of_guard_some st r f n hg hx]
          exact List.mem_cons_self _ _

theorem stepRun_mem_self (p : List Char) (st : RunState) (r : NetResponse)
    (hf : filterMatch r.url = true) (hne : (r.url == p) = false) :
    r.url ∈ (stepRun p st (RunEvent.response r)).1.processedUrls := by
  show r.url ∈ (handleResponse p st r).1.processedUrls
  rw [handleResponse_ne p st r hne]
  exact assetBlock_mem_self st r hf

theorem runEvents_mem_of_event (p u : List Char) (hf : filterMatch u = true)
    (hne : (u == p) = false) :
    ∀ es : List RunEvent, ∀ st : RunState,
      (∃ r : NetResponse, RunEvent.response r ∈ es ∧ r.url = u) →
      u ∈ (runEvents p st es).1.processedUrls := by
  intro es
  induction es with
  | nil =>
      intro st hex
      obtain ⟨r, hmem, _⟩ := hex
      cases hmem
  | cons e es ih =>
      intro st hex
      obtain ⟨r, hmem, hurl⟩ := hex
      rcases List.mem_cons.mp hmem with heq | hmem2
      · subst heq
        subst hurl
        have h1 := stepRun_mem_self p st r hf hne
        exact runEvents_processed_super p es _ r.url h1
      · exact ih (stepRun p st e).1 ⟨r, hmem2, hurl⟩

/-- C1: over any event sequence starting from the initial state, a URL has at
most one download task in the queue; and a URL that passes the filter, whose
extraction succeeds, that differs from the primary URL, and for which at
least one response event is delivered, has exactly one task — no matter how
many duplicate events for it are delivered. The membership test and the
insertion into processedUrls have no suspension point between them in the
source, so each event is one atomic state transition. -/
theorem c1_enqueue_exactly_once (p u : List Char) (es : List RunEvent) :
    countUrl (runEvents p initState es).1 u ≤ 1 ∧
    (filterMatch u = true → (extractScan u).isSome = true → (u == p) = false →
      (∃ r : NetResponse, RunEvent.response r ∈ es ∧ r.url = u) →
      countUrl (runEvents p initState es).1 u = 1) := by
  have hinv : PQInv (runEvents p initState es).1.processedUrls
      (runEvents p initState es).1.downloadQueue :=
    runEvents_inv p es initState
      ⟨fun v hv => absurd hv (List.not_mem_nil v), fun v _ => rfl,
        fun v hv => absurd hv (List.not_mem_nil v)⟩
  obtain ⟨h1, h2, h3⟩ := hinv
  constructor
  · by_cases hm : u ∈ (runEvents p initState es).1.processedUrls
    · have := h3 u hm
      unfold countUrl
      rw [this]
      split <;> omega
    · have := h2 u hm
      unfold countUrl
      omega
  · intro hf hs hne hex
    have hm := runEvents_mem_of_event p u hf hne es initState hex
    have := h3 u hm
    unfold countUrl
    rw [this]
    simp [hs]

/-- C1 witness: two identical response events for the same asset URL in a row
produce exactly one download task. -/
theorem c1_enqueue_exactly_once_witness :
    countUrl (runEvents "https://sushiscan.net/c/".toList initState
      [RunEvent.response ⟨"https://s/wp-content/uploads/2023/x-12.jpg".toList, true, []⟩,
        RunEvent.response ⟨"https://s/wp-content/uploads/2023/x-12.jpg".toList, true, []⟩]).1
      "https://s/wp-content/uploads/2023/x-12.jpg".toList = 1 :=
  (c1_enqueue_exactly_once "https://sushiscan.net/c/".toList
    "https://s/wp-content/uploads/2023/x-12.jpg".toList _).2
    (by decide) (by decide) (by decide)
    ⟨⟨"https://s/wp-content/uploads/2023/x-12.jpg".toList, true, []⟩,
      List.mem_cons_self _ _, rfl⟩

/-! ## The retry loop (C2) -/

/-- Within any observation window, downloadWithRetry returns only at the
first successful attempt, and its trace is the failure segments of every
earlier attempt followed by the file write. -/
theorem downloadWithRetry_some_characterization (resp : Nat → AttemptResult) :
    ∀ fuel a tr, downloadWithRetry resp a fuel = some tr →
      ∃ i body, a ≤ i ∧ i < a + fuel ∧ successBody (resp i) = some body ∧
        (∀ j, a ≤ j → j < i → successBody (resp j) = none) ∧
        tr = (List.range' a (i - a)).flatMap failSeg ++
          DlAction.writeFile body :: (if 0 < i then [DlAction.barSetOne] else []) := by
  intro fuel
  induction fuel with
  | zero =>
      intro a tr h
      simp [downloadWithRetry] at h
  | succ f ih =>
      intro a tr h
      unfold downloadWithRetry at h
      cases hs : successBody (resp a) with
      | some body =>
          rw [hs] at h
          cases h
          refine ⟨a, body, Nat.le_refl a, by omega, hs, ?_, ?_⟩
          · intro j hj1 hj2
            omega
          · simp [Nat.sub_self, List.range']
      | none =>
          rw [hs] at h
          cases hrec : downloadWithRetry resp (a + 1) f with
          | none =>
              rw [hrec] at h
              simp at h
          | some tr0 =>
              rw [hrec] at h
              obtain ⟨i, body, hi1, hi2, hsb, hprev, htr⟩ := ih (a + 1) tr0 hrec
              cases h
              refine ⟨i, body, by omega, by omega, hsb, ?_, ?_⟩
              · intro j hj1 hj2
                by_cases hja : j = a
                · subst hja
                  exact hs
                · exact hprev j (by omega) hj2
              · rw [htr]
                have hr : List.range' a (i - a) = a :: List.range' (a + 1) (i - (a + 1)) := by
                  have hh : i - a = (i - (a + 1)) + 1 := by omega
                  rw [hh, List.range'_succ]
                rw [hr, List.flatMap_cons]
                simp [failSeg, List.append_assoc]

/-- If no attempt ever succeeds, the loop never returns, whatever the
observation window. -/
theorem downloadWithRetry_none_of_noSuccess (resp : Nat → AttemptResult)
    (hfail : ∀ i, successBody (resp i) = none) :
    ∀ fuel a, downloadWithRetry resp a fuel = none := by
  intro fuel
  induction fuel with
  | zero => intro a; rfl
  | succ f ih =>
      intro a
      simp only [downloadWithRetry, hfail, ih]

theorem countP_failSeg (j : Nat) : (failSeg j).countP isDelayTen = 1 := by
  unfold failSeg failDiagnostics
  split
  · rfl
  · split <;> rfl

theorem countP_bind_failSeg : ∀ k a : Nat,
    ((List.range' a k).flatMap failSeg).countP isDelayTen = k := by
  intro k
  induction k with
  | zero => intro a; rfl
  | succ kk ih =>
      intro a
      rw [List.range'_succ, List.flatMap_cons, List.countP_append, countP_failSeg, ih (a + 1)]
      omega

/-- C2: downloadWithRetry never returns after a failed attempt alone. Within
any observation window: if it returns, there is a first successful attempt i,
every attempt before i failed, the body of attempt i was persisted, and the
trace holds exactly one fixed 10000 millisecond delay per failed attempt
(each failure segment ends with its delay before the next attempt); and if no
attempt ever succeeds it never returns, so no per-asset failure surfaces as a
final failure. -/
theorem c2_unbounded_retry (resp : Nat → AttemptResult) (fuel : Nat) :
    (∀ tr, downloadWithRetry resp 0 fuel = some tr →
      ∃ i body, i < fuel ∧ successBody (resp i) = some body ∧
        (∀ j, j < i → successBody (resp j) = none) ∧
        DlAction.writeFile body ∈ tr ∧
        tr.countP isDelayTen = i ∧
        tr = (List.range' 0 i).flatMap failSeg ++
          DlAction.writeFile body :: (if 0 < i then [DlAction.barSetOne] else [])) ∧
    ((∀ i, successBody (resp i) = none) → downloadWithRetry resp 0 fuel = none) := by
  constructor
  · intro tr h
    obtain ⟨i, body, _, hi2, hsb, hprev, htr⟩ :=
      downloadWithRetry_some_characterization resp fuel 0 tr h
    have htr2 : tr = (List.range' 0 i).flatMap failSeg ++
        DlAction.writeFile body :: (if 0 < i then [DlAction.barSetOne] else []) := htr
    refine ⟨i, body, by omega, hsb, fun j hj => hprev j (Nat.zero_le j) hj, ?_, ?_, htr2⟩
    · rw [htr2]
      simp
    · rw [htr2, List.countP_append, countP_bind_failSeg]
      have htail : (DlAction.writeFile body ::
          (if 0 < i then [DlAction.barSetOne] else [])).countP isDelayTen = 0 := by
        split <;> rfl
      rw [htail]
      omega
  · intro hfail
    exact downloadWithRetry_none_of_noSuccess resp hfail fuel 0

/-- C2 witness: two failures with HTTP status 503 then a success produce a
trace with two logged retries, two 10 second delays and the file write; and a
permanently failing transport never lets the loop return within a window of
5 attempts. -/
theorem c2_unbounded_retry_witness :
    (∃ i body, i < 5 ∧
      successBody ((fun k => if k < 2 then AttemptResult.response 503 []
        else AttemptResult.response 200 ['b']) i) = some body ∧
      (∀ j, j < i →
        successBody ((fun k => if k < 2 then AttemptResult.response 503 []
          else AttemptResult.response 200 ['b']) j) = none) ∧
      DlAction.writeFile body ∈
        [DlAction.logRetry 1, DlAction.delay 10000, DlAction.logRetry 2, DlAction.delay 10000,
          DlAction.writeFile ['b'], DlAction.barSetOne] ∧
      ([DlAction.logRetry 1, DlAction.delay 10000, DlAction.logRetry 2, DlAction.delay 10000,
          DlAction.writeFile ['b'], DlAction.barSetOne] : List DlAction).countP isDelayTen = i ∧
      [DlAction.logRetry 1, DlAction.delay 10000, DlAction.logRetry 2, DlAction.delay 10000,
          DlAction.writeFile ['b'], DlAction.barSetOne] =
        (List.range' 0 i).flatMap failSeg ++
          DlAction.writeFile body :: (if 0 < i then [DlAction.barSetOne] else [])) ∧
    downloadWithRetry (fun _ => AttemptResult.transportError) 0 5 = none :=
  ⟨(c2_unbounded_retry (fun k => if k < 2 then AttemptResult.response 503 []
      else AttemptResult.response 200 ['b']) 5).1
      [DlAction.logRetry 1, DlAction.delay 10000, DlAction.logRetry 2, DlAction.delay 10000,
        DlAction.writeFile ['b'], DlAction.barSetOne] rfl,
    (c2_unbounded_retry (fun _ => AttemptResult.transportError) 5).2 (fun _ => rfl)⟩

/-! ## Destination-path shape (C10) -/

theorem splitOn_cons (sep c : Char) (rest : List Char) :
    splitOn sep (c :: rest) =
      if c == sep then [] :: splitOn sep rest
      else
        match splitOn sep rest with
        | f :: fs => (c :: f) :: fs
        | [] => [[c]] := rfl

theorem extractAt_props (s : List Char) (f n : List Char) (h : extractAt s = some (f, n)) :
    f ≠ [] ∧ (∀ c ∈ f, folderChar c = true) ∧ n ≠ [] ∧ (∀ c ∈ n, isDigitChar c = true) := by
  unfold extractAt at h
  simp only [] at h
  split at h
  · cases h
  · rename_i hfold
    split at h
    · rename_i r2 heq1
      split at h
      · cases h
      · rename_i hname
        split at h
        · rename_i ws heq2
          split at h
          · simp only [Option.some.injEq, Prod.mk.injEq] at h
            obtain ⟨hf, hn⟩ := h
            subst hf
            subst hn
            refine ⟨fun he => hfold (by rw [he]; rfl),
              fun c hc => List.mem_takeWhile_imp hc,
              fun he => hname (by rw [he]; rfl),
              fun c hc => List.mem_takeWhile_imp hc⟩
          · cases h
        · cases h
    · cases h

theorem extractScan_props (u : List Char) :
    ∀ f n, extractScan u = some (f, n) →
      f ≠ [] ∧ (∀ c ∈ f, folderChar c = true) ∧ n ≠ [] ∧ (∀ c ∈ n, isDigitChar c = true) := by
  induction u with
  | nil =>
      intro f n h
      cases h
  | cons c rest ih =>
      intro f n h
      unfold extractScan at h
      split at h
      · split at h
        · rename_i p hp
          cases h
          exact extractAt_props rest f n hp
        · exact ih f n h
      · exact ih f n h

theorem splitOn_ne_nil (sep : Char) (s : List Char) : splitOn sep s ≠ [] := by
  cases s with
  | nil => simp [splitOn]
  | cons c rest =>
      rw [splitOn_cons]
      split
      · simp
      · split
        · simp
        · simp

theorem splitOn_append_sep (sep : Char) :
    ∀ x y : List Char, splitOn sep (x ++ sep :: y) = splitOn sep x ++ splitOn sep y := by
  intro x
  induction x with
  | nil =>
      intro y
      simp only [List.nil_append, splitOn_cons, beq_self_eq_true, if_true]
      rfl
  | cons c x ih =>
      intro y
      rw [List.cons_append, splitOn_cons, splitOn_cons, ih]
      cases hc : (c == sep) with
      | true => simp [hc]
      | false =>
          simp only [hc, Bool.false_eq_true, if_false]
          cases hsx : splitOn sep x with
          | nil => exact absurd hsx (splitOn_ne_nil sep x)
          | cons f0 fs0 => simp [hsx]

theorem splitOn_no_sep (sep : Char) :
    ∀ s : List Char, (∀ c ∈ s, (c == sep) = false) → splitOn sep s = [s] := by
  intro s
  induction s with
  | nil => intro _; rfl
  | cons c rest ih =>
      intro h
      rw [splitOn_cons, h c (List.mem_cons_self _ _),
        ih (fun x hx => h x (List.mem_cons_of_mem _ hx))]
      rfl

theorem normSegs_append_two (xs : List (List Char)) (f njpg : List Char)
    (hf1 : f ≠ ".".toList) (hf2 : f ≠ "..".toList)
    (hn1 : njpg ≠ ".".toList) (hn2 : njpg ≠ "..".toList) :
    normSegs (xs ++ [f, njpg]) = normSegs xs ++ [f, njpg] := by
  have hf1b : f ≠ ['.'] := hf1
  have hf2b : f ≠ ['.', '.'] := hf2
  have hn1b : njpg ≠ ['.'] := hn1
  have hn2b : njpg ≠ ['.', '.'] := hn2
  unfold normSegs
  rw [List.foldl_append]
  show normStep (normStep (xs.foldl normStep []) f) njpg = _
  unfold normStep
  simp [hf1b, hf2b, hn1b, hn2b]

theorem digits_jpg_not_special (n : List Char) (hn : n ≠ [])
    (hd : ∀ c ∈ n, isDigitChar c = true) :
    n ++ ".jpg".toList ≠ ".".toList ∧ n ++ ".jpg".toList ≠ "..".toList := by
  cases n with
  | nil => exact absurd rfl hn
  | cons c rest =>
      have hc := hd c (List.mem_cons_self _ _)
      refine ⟨fun he => ?_, fun he => ?_⟩ <;>
      · have hh := congrArg List.head? he
        simp at hh
        subst hh
        exact absurd hc (by decide)

theorem folderChar_classes (c : Char) (h : folderChar c = true) : c ≠ '/' ∧ c ≠ '-' := by
  unfold folderChar at h
  simp at h
  exact h

/-- C10 counterexample: the URL whose last segment is dot dot dash 12 dot jpg
passes the filter, extracts folder dot-dot and name 12, and the resulting
write path dl slash dot-dot slash 12.jpg resolves lexically to 12.jpg — a
location outside the destination root dl, refuting that every enqueued task
writes exactly two levels below destinationRoot. -/
theorem c10_counterexample :
    filterMatch "https://s/wp-content/upload/..-12.jpg".toList = true ∧
    extractScan "https://s/wp-content/upload/..-12.jpg".toList =
      some ("..".toList, "12".toList) ∧
    normSegs (pathSegs (destPath "dl".toList "..".toList "12".toList)) = ["12.jpg".toList] ∧
    normSegs (pathSegs (destPath "dl".toList "..".toList "12".toList)) ≠
      normSegs (pathSegs "dl".toList) ++ ["..".toList, "12.jpg".toList] := by
  refine ⟨by decide, by decide, by decide, by decide⟩

/-- C10 amended: for every enqueued task the folder capture is a nonempty
string containing neither slash nor dash and the name capture is nonempty
digits, so the write path always has the two-segment shape destinationRoot
slash folder slash name dot jpg; but the folder may be the dot or dot-dot
segment, in which case lexical resolution escapes the destination root — the
path resolves exactly two levels below destinationRoot only when the folder
is neither dot nor dot-dot. -/
theorem c10_captures_and_path (u f n dest : List Char) (h : extractScan u = some (f, n)) :
    f ≠ [] ∧ (∀ c ∈ f, c ≠ '/' ∧ c ≠ '-') ∧ n ≠ [] ∧ (∀ c ∈ n, isDigitChar c = true) ∧
    (f ≠ ".".toList → f ≠ "..".toList →
      normSegs (pathSegs (destPath dest f n)) =
        normSegs (pathSegs dest) ++ [f, n ++ ".jpg".toList]) := by
  obtain ⟨hf0, hfc, hn0, hnc⟩ := extractScan_props u f n h
  refine ⟨hf0, fun c hc => folderChar_classes c (hfc c hc), hn0, hnc, ?_⟩
  intro hfd hfdd
  have hfslash : ∀ c ∈ f, (c == '/') = false := by
    intro c hc
    have hcc := (folderChar_classes c (hfc c hc)).1
    simpa using hcc
  have hnjpg : ∀ c ∈ n ++ ".jpg".toList, (c == '/') = false := by
    intro c hc
    rcases List.mem_append.mp hc with hcn | hcj
    · have hdig := hnc c hcn
      cases hcc : (c == '/') with
      | false => rfl
      | true =>
          have hce : c = '/' := by simpa using hcc
          rw [hce] at hdig
          exact absurd hdig (by decide)
    · fin_cases hcj <;> decide
  have hdp : destPath dest f n = dest ++ '/' :: (f ++ '/' :: (n ++ ".jpg".toList)) := by
    unfold destPath
    simp [List.append_assoc]
  unfold pathSegs
  rw [hdp, splitOn_append_sep, splitOn_append_sep, splitOn_no_sep '/' f hfslash,
    splitOn_no_sep '/' (n ++ ".jpg".toList) hnjpg]
  exact normSegs_append_two (splitOn '/' dest) f (n ++ ".jpg".toList) hfd hfdd
    (digits_jpg_not_special n hn0 hnc).1 (digits_jpg_not_special n hn0 hnc).2

/-- C10 witness: a well-formed URL yields folder x and name 12, and the write
path resolves exactly two levels below the destination root dl. -/
theorem c10_captures_and_path_witness :
    normSegs (pathSegs (destPath "dl".toList "x".toList "12".toList)) =
      normSegs (pathSegs "dl".toList) ++ ["x".toList, "12.jpg".toList] :=
  ((c10_captures_and_path "https://s/wp-content/uploads/2023/x-12.jpg".toList
    "x".toList "12".toList "dl".toList (by decide)).2.2.2.2) (by decide) (by decide)
